import Mathlib

/-!
Verification of the blocksFloorplanTiler core against its specification.

The Python source is shallowly embedded:
- machine integers become `Nat`/`Int`;
- Python float arithmetic on the quantities below is exact in binary floating
  point for the magnitudes the program handles (multiplication/division by
  powers of two of integers far below 2^53), so it is embedded as exact `ℚ`
  arithmetic;
- `math.ceil(math.log2(a / b))` and `math.floor(math.log2 q)` are embedded as
  exact base-2 integer logarithms (`ceilLog2` / `floorLog2` below), proved to
  satisfy the defining property of the real-valued ceiling/floor logarithm;
- PIL images are embedded as a size plus a pixel function; PIL library calls
  (crop, paste, new, convert, point/getbbox) are translated operation by
  operation; the LANCZOS resample and the PDF rasterizer are external
  collaborators and enter as opaque function parameters / inputs.
-/

namespace FloorplanTiler

/-! ## Exact base-2 logarithms

`flog2Aux`/`clog2Aux` are fuel-driven (structurally recursive, hence kernel
reducible) versions of floor/ceil of `log2` on `ℕ`. `fuel = n` suffices since
the argument at least halves (towards 1) each step. -/

/-- Fuel-driven floor of log2: `flog2Aux fuel n = ⌊log2 n⌋` whenever `1 ≤ n ≤ fuel`. -/
def flog2Aux : ℕ → ℕ → ℕ
  | 0, _ => 0
  | fuel + 1, n => if n < 2 then 0 else flog2Aux fuel (n / 2) + 1

/-- Floor of the base-2 logarithm of a positive natural number. -/
def flog2Nat (n : ℕ) : ℕ := flog2Aux n n

/-- Fuel-driven ceiling of log2: `clog2Aux fuel n = ⌈log2 n⌉` whenever `1 ≤ n ≤ fuel`. -/
def clog2Aux : ℕ → ℕ → ℕ
  | 0, _ => 0
  | fuel + 1, n => if n ≤ 1 then 0 else clog2Aux fuel ((n + 1) / 2) + 1

/-- Ceiling of the base-2 logarithm of a positive natural number. -/
def clog2Nat (n : ℕ) : ℕ := clog2Aux n n

theorem flog2Aux_correct : ∀ fuel n, 1 ≤ n → n ≤ fuel →
    2 ^ flog2Aux fuel n ≤ n ∧ n < 2 ^ (flog2Aux fuel n + 1) := by
  intro fuel
  induction fuel with
  | zero => intro n h1 h2; omega
  | succ fuel ih =>
    intro n h1 h2
    rw [flog2Aux]
    by_cases h : n < 2
    · simp only [if_pos h]; omega
    · simp only [if_neg h]
      have hrec := ih (n / 2) (by omega) (by omega)
      have h2pow : 2 ^ (flog2Aux fuel (n / 2) + 1) = 2 * 2 ^ flog2Aux fuel (n / 2) := by ring
      constructor
      · calc 2 ^ (flog2Aux fuel (n / 2) + 1) = 2 * 2 ^ flog2Aux fuel (n / 2) := h2pow
          _ ≤ 2 * (n / 2) := by omega
          _ ≤ n := by omega
      · have : n / 2 < 2 ^ (flog2Aux fuel (n / 2) + 1) := hrec.2
        have : 2 ^ (flog2Aux fuel (n / 2) + 1 + 1) = 2 * 2 ^ (flog2Aux fuel (n / 2) + 1) := by
          ring
        omega

theorem two_pow_flog2Nat_le {n : ℕ} (h : 1 ≤ n) : 2 ^ flog2Nat n ≤ n :=
  (flog2Aux_correct n n h le_rfl).1

theorem lt_two_pow_flog2Nat_succ {n : ℕ} (h : 1 ≤ n) : n < 2 ^ (flog2Nat n + 1) :=
  (flog2Aux_correct n n h le_rfl).2

theorem clog2Aux_le_of_le : ∀ fuel n k, n ≤ 2 ^ k → clog2Aux fuel n ≤ k := by
  intro fuel
  induction fuel with
  | zero => intro n k _; simp [clog2Aux]
  | succ fuel ih =>
    intro n k hk
    rw [clog2Aux]
    by_cases h : n ≤ 1
    · simp [h]
    · simp only [if_neg h]
      have hk1 : 1 ≤ k := by
        by_contra hc
        have : k = 0 := by omega
        subst this
        simp at hk; omega
      obtain ⟨m, rfl⟩ : ∃ m, k = m + 1 := ⟨k - 1, by omega⟩
      have hrec : (n + 1) / 2 ≤ 2 ^ m := by
        have : 2 ^ (m + 1) = 2 * 2 ^ m := by ring
        omega
      have := ih ((n + 1) / 2) m hrec
      omega

theorem le_two_pow_clog2Aux : ∀ fuel n, 1 ≤ n → n ≤ fuel → n ≤ 2 ^ clog2Aux fuel n := by
  intro fuel
  induction fuel with
  | zero => intro n h1 h2; omega
  | succ fuel ih =>
    intro n h1 h2
    rw [clog2Aux]
    by_cases h : n ≤ 1
    · simp only [if_pos h]; omega
    · simp only [if_neg h]
      have hrec := ih ((n + 1) / 2) (by omega) (by omega)
      have : 2 ^ (clog2Aux fuel ((n + 1) / 2) + 1) = 2 * 2 ^ clog2Aux fuel ((n + 1) / 2) := by
        ring
      omega

theorem le_two_pow_clog2Nat {n : ℕ} (h : 1 ≤ n) : n ≤ 2 ^ clog2Nat n :=
  le_two_pow_clog2Aux n n h le_rfl

theorem clog2Nat_le_of_le {n k : ℕ} (hk : n ≤ 2 ^ k) : clog2Nat n ≤ k :=
  clog2Aux_le_of_le n n k hk

/-- Embedding of Python `math.ceil(math.log2(a / b))` for positive `a`, `b`:
the exact ceiling of the real base-2 logarithm of the ratio `a / b`.
(`math.log2` on these inputs is exact or off by strictly less than the gap to
the next integer; the claims evaluated through this function involve exact
powers of two.) -/
def ceilLog2 (a b : ℕ) : ℤ :=
  if b ≤ a then (clog2Nat ((a + b - 1) / b) : ℤ) else -(flog2Nat (b / a) : ℤ)

/-- Embedding of Python `math.floor(math.log2(a / b))` for positive `a`, `b`. -/
def floorLog2 (a b : ℕ) : ℤ :=
  if b ≤ a then (flog2Nat (a / b) : ℤ) else -(clog2Nat ((b + a - 1) / a) : ℤ)

/-- Fidelity of `ceilLog2`: `ceilLog2 a b` is the least integer `k` with
`a / b ≤ 2 ^ k`, i.e. the ceiling of the real `log2 (a / b)`. -/
theorem ceilLog2_correct (a b : ℕ) (ha : 1 ≤ a) (hb : 1 ≤ b) :
    (a : ℚ) ≤ (b : ℚ) * 2 ^ ceilLog2 a b ∧
      ∀ k : ℤ, (a : ℚ) ≤ (b : ℚ) * 2 ^ k → ceilLog2 a b ≤ k := by
  have hb0 : 0 < b := by omega
  unfold ceilLog2
  by_cases hba : b ≤ a
  · simp only [if_pos hba]
    have hdm := Nat.div_add_mod (a + b - 1) b
    have hmod : (a + b - 1) % b < b := Nat.mod_lt _ hb0
    have hbc1 : a ≤ b * ((a + b - 1) / b) := by
      generalize hx : b * ((a + b - 1) / b) = x at hdm ⊢
      omega
    have hc1 : 1 ≤ (a + b - 1) / b := by
      rcases Nat.eq_zero_or_pos ((a + b - 1) / b) with h0 | h1
      · rw [h0, Nat.mul_zero] at hbc1; omega
      · exact h1
    constructor
    · have h1 : (a + b - 1) / b ≤ 2 ^ clog2Nat ((a + b - 1) / b) :=
        le_two_pow_clog2Nat hc1
      have h2 : a ≤ b * 2 ^ clog2Nat ((a + b - 1) / b) :=
        le_trans hbc1 (Nat.mul_le_mul_left b h1)
      calc (a : ℚ) ≤ ((b * 2 ^ clog2Nat ((a + b - 1) / b) : ℕ) : ℚ) := by exact_mod_cast h2
        _ = (b : ℚ) * 2 ^ (clog2Nat ((a + b - 1) / b) : ℤ) := by
          rw [zpow_natCast]; push_cast; ring
    · intro k hk
      rcases le_or_lt 0 k with hk0 | hk0
      · lift k to ℕ using hk0 with m
        rw [zpow_natCast] at hk
        have hm : a ≤ b * 2 ^ m := by exact_mod_cast hk
        have hcm : (a + b - 1) / b ≤ 2 ^ m := by
          refine (Nat.div_le_iff_le_mul_add_pred hb0).mpr ?_
          generalize hy : b * 2 ^ m = y at hm ⊢
          omega
        exact_mod_cast clog2Nat_le_of_le hcm
      · -- k < 0, so 2 ^ k < 1 while b ≤ a: contradiction with hk
        exfalso
        obtain ⟨m, rfl⟩ : ∃ m : ℕ, k = -((m : ℤ) + 1) := ⟨(-k - 1).toNat, by omega⟩
        have h2 : (2 : ℚ) ^ ((m : ℤ) + 1) = (2 : ℚ) ^ (m + 1 : ℕ) := by
          rw [← zpow_natCast]; norm_num
        have hgt : (1 : ℚ) < (2 : ℚ) ^ ((m : ℤ) + 1) := by
          rw [h2]
          exact one_lt_pow₀ (by norm_num) (by omega)
        have hlt : (2 : ℚ) ^ (-((m : ℤ) + 1)) < 1 := by
          rw [zpow_neg]
          exact inv_lt_one_of_one_lt₀ hgt
        have hba' : (b : ℚ) ≤ (a : ℚ) := by exact_mod_cast hba
        have hbpos : (0 : ℚ) < b := by exact_mod_cast hb
        nlinarith [hk]
  · -- a < b : the ratio is below 1 and the answer is -(flog2Nat (b / a))
    simp only [if_neg hba]
    push_neg at hba
    have hba1 : 1 ≤ b / a := Nat.one_le_div_iff (by omega) |>.mpr (by omega)
    have hapos : (0 : ℚ) < a := by exact_mod_cast ha
    constructor
    · have h1 : 2 ^ flog2Nat (b / a) ≤ b / a := two_pow_flog2Nat_le hba1
      have h2 : a * 2 ^ flog2Nat (b / a) ≤ b := by
        calc a * 2 ^ flog2Nat (b / a) ≤ a * (b / a) := Nat.mul_le_mul_left a h1
          _ ≤ b := Nat.mul_div_le b a
      have h2q : (a : ℚ) * 2 ^ (flog2Nat (b / a) : ℕ) ≤ (b : ℚ) := by exact_mod_cast h2
      rw [zpow_neg, zpow_natCast, ← div_eq_mul_inv]
      rw [le_div_iff₀ (by positivity)]
      linarith
    · intro k hk
      rw [neg_le]
      rcases le_or_lt 0 k with hk0 | hk0
      · omega
      · obtain ⟨m, rfl⟩ : ∃ m : ℕ, k = -(m : ℤ) := ⟨k.natAbs, by omega⟩
        have hm : a * 2 ^ m ≤ b := by
          have hq : (a : ℚ) * 2 ^ m ≤ (b : ℚ) := by
            rw [zpow_neg, zpow_natCast, ← div_eq_mul_inv] at hk
            rw [le_div_iff₀ (by positivity)] at hk
            linarith
          exact_mod_cast hq
        have h2m : 2 ^ m ≤ b / a := by
          refine (Nat.le_div_iff_mul_le (by omega)).mpr ?_
          rw [Nat.mul_comm]
          exact hm
        have hmf : m ≤ flog2Nat (b / a) := by
          by_contra hcon
          push_neg at hcon
          have h1 : flog2Nat (b / a) + 1 ≤ m := by omega
          have h2 : 2 ^ (flog2Nat (b / a) + 1) ≤ 2 ^ m :=
            Nat.pow_le_pow_right (by omega) h1
          have := lt_two_pow_flog2Nat_succ hba1
          omega
        omega

/-! ## ZoomPlanner (inlined in `process_floorplan_sync`, app.py)

The code auto-derives the maximum zoom as
`max_zoom = max(0, min(ceil(log2(max_dim / tile_size)) + ZOOM_BOOST, MAX_ZOOM_LIMIT))`,
or clamps the forced value; `min_zoom = max(0, min(MIN_ZOOM_ENV, max_zoom))`. -/

/-- `MAX_ZOOM_LIMIT = 12`, hard-coded in `process_floorplan_sync`. -/
def MAX_ZOOM_LIMIT : ℤ := 12

/-- The auto-derivation branch (`FORCED_MAX_Z == -1`) of the zoom planner:
`optimal_zoom = math.ceil(math.log2(max_dim / tile_size))`,
`boosted_zoom = optimal_zoom + ZOOM_BOOST`,
`max_zoom = max(0, min(boosted_zoom, MAX_ZOOM_LIMIT))`. -/
def autoMaxZoom (w h tileSize : ℕ) (zoomBoost : ℤ) : ℤ :=
  let maxDim := max w h
  let optimalZoom := ceilLog2 maxDim tileSize
  let boostedZoom := optimalZoom + zoomBoost
  max 0 (min boostedZoom MAX_ZOOM_LIMIT)

/-- The planner's maximum zoom: auto-derived when `forcedMaxZ = -1`
(the sentinel used by the code), otherwise the clamped forced value. -/
def planMaxZoom (w h tileSize : ℕ) (zoomBoost forcedMaxZ : ℤ) : ℤ :=
  if forcedMaxZ = -1 then autoMaxZoom w h tileSize zoomBoost
  else max 0 (min forcedMaxZ MAX_ZOOM_LIMIT)

/-- `min_zoom = max(0, min(MIN_ZOOM_ENV, max_zoom))`. -/
def planMinZoom (minZoomReq maxZoom : ℤ) : ℤ := max 0 (min minZoomReq maxZoom)

/-- Modelled from the spec (section 4.2): the reduced-boost formula the spec
claims the planner applies when `minDimAtBoosted < tileSize / 2`. This
definition follows the spec's words, for comparison with the code's
`autoMaxZoom`; it appears nowhere in the source. `min(w,h) / (tileSize/2)`
is written as the ratio `2 * min w h / tileSize`. -/
def specReducedBoostMaxZoom (w h tileSize : ℕ) (zoomBoost : ℤ) : ℤ :=
  let baseZoom := ceilLog2 (max w h) tileSize
  let minDimAtBoosted : ℚ := (min w h : ℚ) / 2 ^ (baseZoom + zoomBoost)
  if minDimAtBoosted < (tileSize : ℚ) / 2 then
    let adjustedBoost := max 0 (floorLog2 (2 * min w h) tileSize - baseZoom)
    max 0 (min (baseZoom + adjustedBoost) MAX_ZOOM_LIMIT)
  else
    max 0 (min (baseZoom + zoomBoost) MAX_ZOOM_LIMIT)

/-! ## CoordinateMapper (pdf_annotation.py) -/

/-- Modelled from the spec (section 4.4): the forward pixel-to-viewer mapping
`pixelToViewer(pixelX, pixelY, maxZoom) = (pixelX / 2^maxZoom, -pixelY / 2^maxZoom)`.
The executable forward mapping lives in the Leaflet viewer, outside this
repository; the same formula is recorded in the pipeline comment at the top of
pdf_annotation.py. -/
def pixelToViewer (px py : ℚ) (maxZoom : ℕ) : ℚ × ℚ :=
  (px / 2 ^ maxZoom, -py / 2 ^ maxZoom)

/-- Embedding of `transform_coords` (pdf_annotation.py): Leaflet viewer
coordinates to PDF page coordinates,
`pdf_x = (x * 2^maxZoom + trim_left) / pdf_scale`,
`pdf_y = (-y * 2^maxZoom + trim_top) / pdf_scale`. -/
def transform_coords (x y : ℚ) (maxZoom : ℕ) (pdfScale : ℚ)
    (trimLeft trimTop : ℚ) : ℚ × ℚ :=
  let scale : ℚ := 2 ^ maxZoom
  ((x * scale + trimLeft) / pdfScale, (-y * scale + trimTop) / pdfScale)

/-! ## TrimOffsetDetector (pdf_annotation.py)

`detect_trim_offset` re-renders the page at a cheap scale and re-runs the
foreground detection. The rasterization of the page and the thresholded-mask
bounding box computed from it are a PyMuPDF/PIL library interaction; the
resulting bounding box (`mask.getbbox()` at detection scale) enters the
embedding as the input `detectBBox`. -/

/-- Embedding of `detect_trim_offset` (pdf_annotation.py). `pageW`, `pageH`
are the original page dimensions in points, `imgW`, `imgH` the persisted
post-trim image size, and `detectBBox` the content bounding box found by the
detection pass at `detect_scale = 2.0` (`none` when `mask.getbbox()` found no
foreground pixel). -/
def detect_trim_offset (pageW pageH pdfScale : ℚ) (imgW imgH : ℕ)
    (detectBBox : Option (ℕ × ℕ × ℕ × ℕ)) : ℚ × ℚ :=
  if |pageW * pdfScale - (imgW : ℚ)| ≤ 1 ∧ |pageH * pdfScale - (imgH : ℚ)| ≤ 1 then (0, 0)
  else
    match detectBBox with
    | none => (0, 0)
    | some (l, t, _, _) =>
      let detectScale : ℚ := 2
      let paddingAtDetect : ℚ := 20 * detectScale / pdfScale
      let leftDetect := max 0 ((l : ℚ) - paddingAtDetect)
      let topDetect := max 0 ((t : ℚ) - paddingAtDetect)
      (leftDetect * pdfScale / detectScale, topDetect * pdfScale / detectScale)

/-! ## Claim theorems: zoom planning and coordinate mapping -/

/-- C1 counterexample: at `width = 4096`, `height = 2048`, `tileSize = 512`,
`zoomBoost = 2`, the condition `minDimAtBoosted = 2048 / 2^5 = 64 < 256` the
claim names does hold, yet the planner's auto-derived max zoom (5, the full
boost) differs from the reduced-boost formula's value (3): the code has no
boost-reduction branch. -/
theorem boost_reduction_absent_at_4096x2048 :
    ((min 4096 2048 : ℚ) / 2 ^ (ceilLog2 (max 4096 2048) 512 + 2) < (512 : ℚ) / 2) ∧
      autoMaxZoom 4096 2048 512 2 ≠ specReducedBoostMaxZoom 4096 2048 512 2 := by
  have hbase : ceilLog2 (max 4096 2048) 512 = 3 := by decide
  have hfloor : floorLog2 (2 * min 4096 2048) 512 = 3 := by decide
  have hauto : autoMaxZoom 4096 2048 512 2 = 5 := by
    simp only [autoMaxZoom]
    rw [hbase]
    decide
  have hspec : specReducedBoostMaxZoom 4096 2048 512 2 = 3 := by
    simp only [specReducedBoostMaxZoom]
    rw [hbase, hfloor]
    split
    · decide
    · next hcond =>
        exfalso
        apply hcond
        norm_num
  refine ⟨?_, ?_⟩
  · rw [hbase]
    norm_num
  · rw [hauto, hspec]
    decide

/-- C1 amended: the auto-derivation always applies the full `zoomBoost`:
for `4096×2048`, `tileSize = 512`, `zoomBoost = 2`, the planner returns
`baseZoom + zoomBoost = 3 + 2 = 5` (within the clamp range), with no boost
reduction. -/
theorem auto_max_zoom_full_boost_at_4096x2048 :
    autoMaxZoom 4096 2048 512 2 = ceilLog2 (max 4096 2048) 512 + 2 ∧
      autoMaxZoom 4096 2048 512 2 = 5 := by
  have hbase : ceilLog2 (max 4096 2048) 512 = 3 := by decide
  have hauto : autoMaxZoom 4096 2048 512 2 = 5 := by
    simp only [autoMaxZoom]
    rw [hbase]
    decide
  exact ⟨by rw [hauto, hbase]; decide, hauto⟩

/-- C7: for all valid inputs (positive dimensions, tile size from the allowed
set, any boost, any requested min zoom, forced max zoom supplied (`≥ 0`) or
not (`-1`)), the produced plan satisfies
`0 ≤ minZoom ≤ maxZoom ≤ MAX_ZOOM_LIMIT`. -/
theorem plan_zoom_bounds (w h T : ℕ) (boost minReq forced : ℤ)
    (hw : 0 < w) (hh : 0 < h) (hT : T = 128 ∨ T = 256 ∨ T = 512 ∨ T = 1024) :
    0 ≤ planMinZoom minReq (planMaxZoom w h T boost forced) ∧
      planMinZoom minReq (planMaxZoom w h T boost forced) ≤ planMaxZoom w h T boost forced ∧
      planMaxZoom w h T boost forced ≤ MAX_ZOOM_LIMIT := by
  simp only [planMinZoom, planMaxZoom, autoMaxZoom, MAX_ZOOM_LIMIT]
  split <;> omega

/-- Witness for C7 at the concrete input `4096×2048`, `tileSize = 512`,
`zoomBoost = 4`, `minZoomRequested = 0`, auto-derived max zoom. -/
theorem plan_zoom_bounds_witness :
    (0 < 4096 ∧ 0 < 2048 ∧ ((512 : ℕ) = 128 ∨ (512 : ℕ) = 256 ∨ (512 : ℕ) = 512 ∨ (512 : ℕ) = 1024)) ∧
      (0 ≤ planMinZoom 0 (planMaxZoom 4096 2048 512 4 (-1)) ∧
        planMinZoom 0 (planMaxZoom 4096 2048 512 4 (-1)) ≤ planMaxZoom 4096 2048 512 4 (-1) ∧
        planMaxZoom 4096 2048 512 4 (-1) ≤ MAX_ZOOM_LIMIT) :=
  ⟨⟨by norm_num, by norm_num, by norm_num⟩,
    plan_zoom_bounds 4096 2048 512 4 0 (-1) (by norm_num) (by norm_num) (by norm_num)⟩

/-- C3 counterexample: at `pdfScale = 10`, `maxZoom = 8`, `trimOffset = (50, 20)`,
viewer point `(3.2, -1.5)`, the reverse mapping does NOT return
`(86.72, 40.4)`: the claim's value `86.72` for `(3.2·256 + 50) / 10` is an
arithmetic slip. -/
theorem transform_coords_spec_value_false :
    transform_coords 3.2 (-1.5) 8 10 50 20 ≠ ((86.72 : ℚ), (40.4 : ℚ)) := by
  simp only [transform_coords, Prod.mk.injEq, not_and]
  intro h
  norm_num at h

/-- C3 amended: the reverse mapping at that input returns
`pageX = (3.2·256 + 50) / 10 = 86.92` and `pageY = (1.5·256 + 20) / 10 = 40.4`. -/
theorem transform_coords_concrete :
    transform_coords 3.2 (-1.5) 8 10 50 20 = ((86.92 : ℚ), (40.4 : ℚ)) := by
  simp only [transform_coords, Prod.mk.injEq]
  constructor <;> norm_num

/-- C4 counterexample: the round trip reverse∘forward with zero trim offset is
not the identity for every render scale: at `px = py = 1`, `Z = 0`,
`pdfScale = 2` it returns `(1/2, 1/2)`, not `(1, 1)` — the reverse map lands
in PDF point space, dividing by the render scale. -/
theorem roundtrip_not_identity :
    transform_coords (pixelToViewer 1 1 0).1 (pixelToViewer 1 1 0).2 0 2 0 0 ≠
      ((1 : ℚ), (1 : ℚ)) := by
  simp only [transform_coords, pixelToViewer, Prod.mk.injEq, not_and]
  intro h
  norm_num at h

/-- C4 amended: for `trimOffset = (0,0)` and any nonzero render scale, the
round trip returns the original pixel point divided by the render scale,
`(px / pdfScale, py / pdfScale)`; it is the identity exactly when the render
scale is 1. -/
theorem roundtrip_divides_by_pdf_scale (px py : ℚ) (Z : ℕ) (s : ℚ) (hs : s ≠ 0) :
    transform_coords (pixelToViewer px py Z).1 (pixelToViewer px py Z).2 Z s 0 0 =
        (px / s, py / s) ∧
      (s = 1 →
        transform_coords (pixelToViewer px py Z).1 (pixelToViewer px py Z).2 Z s 0 0 =
          (px, py)) := by
  have h2 : ((2 : ℚ) ^ Z) ≠ 0 := by positivity
  have hmain : transform_coords (pixelToViewer px py Z).1 (pixelToViewer px py Z).2 Z s 0 0 =
      (px / s, py / s) := by
    simp only [transform_coords, pixelToViewer, Prod.mk.injEq]
    constructor
    · field_simp
    · field_simp
  refine ⟨hmain, fun h1 => ?_⟩
  rw [hmain, h1]
  simp

/-- Witness for C4 (amended) at `px = 3`, `py = 7`, `Z = 4`, `pdfScale = 10`. -/
theorem roundtrip_divides_by_pdf_scale_witness :
    (10 : ℚ) ≠ 0 ∧
      (transform_coords (pixelToViewer 3 7 4).1 (pixelToViewer 3 7 4).2 4 10 0 0 =
          ((3 : ℚ) / 10, (7 : ℚ) / 10) ∧
        ((10 : ℚ) = 1 →
          transform_coords (pixelToViewer 3 7 4).1 (pixelToViewer 3 7 4).2 4 10 0 0 =
            ((3 : ℚ), (7 : ℚ)))) :=
  ⟨by norm_num, roundtrip_divides_by_pdf_scale 3 7 4 10 (by norm_num)⟩

/-- C8: whenever the pre-trim raster size (`page size × render scale`) matches
the persisted post-trim image size within 1 pixel on both axes, the detection
pass is skipped and the offset returned is `(0, 0)`. -/
theorem detect_trim_offset_zero_when_size_matches (pageW pageH pdfScale : ℚ)
    (imgW imgH : ℕ) (bb : Option (ℕ × ℕ × ℕ × ℕ))
    (h1 : |pageW * pdfScale - (imgW : ℚ)| ≤ 1)
    (h2 : |pageH * pdfScale - (imgH : ℚ)| ≤ 1) :
    detect_trim_offset pageW pageH pdfScale imgW imgH bb = (0, 0) := by
  unfold detect_trim_offset
  rw [if_pos ⟨h1, h2⟩]

/-- Witness for C8: page `100×75` points at scale 2 against a persisted
`200×150` image, with a detection bounding box present: the offset is still
`(0, 0)` because the sizes match. -/
theorem detect_trim_offset_zero_when_size_matches_witness :
    (|(100 : ℚ) * 2 - ((200 : ℕ) : ℚ)| ≤ 1 ∧ |(75 : ℚ) * 2 - ((150 : ℕ) : ℚ)| ≤ 1) ∧
      detect_trim_offset 100 75 2 200 150 (some (5, 7, 20, 30)) = (0, 0) :=
  ⟨⟨by norm_num, by norm_num⟩,
    detect_trim_offset_zero_when_size_matches 100 75 2 200 150 (some (5, 7, 20, 30))
      (by norm_num) (by norm_num)⟩

/-- C9: when the detection pass finds no foreground (its thresholded mask has
an empty bounding box), `detect_trim_offset` returns the fallback `(0, 0)`
rather than failing, for every input. -/
theorem detect_trim_offset_none_fallback (pageW pageH pdfScale : ℚ) (imgW imgH : ℕ) :
    detect_trim_offset pageW pageH pdfScale imgW imgH none = (0, 0) := by
  unfold detect_trim_offset
  split <;> rfl

/-! ## Images

A PIL image is embedded as its size, its color mode string, and a pixel
function (reads outside `[0, width) × [0, height)` are junk values that no
theorem depends on). -/

/-- An RGBA pixel; 8-bit channels are naturals. -/
structure Pixel where
  r : ℕ
  g : ℕ
  b : ℕ
  a : ℕ
deriving DecidableEq

/-- A raster image: size, PIL color mode, pixel function. -/
structure Image where
  width : ℕ
  height : ℕ
  mode : String
  pixel : ℕ → ℕ → Pixel

/-- The fully transparent pixel `(0, 0, 0, 0)` used for tile padding. -/
def transparentPixel : Pixel := ⟨0, 0, 0, 0⟩

/-- White background pixel `(255, 255, 255)`. -/
def whiteRGB : Pixel := ⟨255, 255, 255, 255⟩

/-- Embedding of `Image.crop((x1, y1, x2, y2))`: size `(x2 - x1) × (y2 - y1)`,
pixels read from the source at offset `(x1, y1)`, mode preserved. -/
def cropImage (img : Image) (x1 y1 x2 y2 : ℕ) : Image :=
  { width := x2 - x1, height := y2 - y1, mode := img.mode,
    pixel := fun i j => img.pixel (x1 + i) (y1 + j) }

/-- Embedding of `Image.convert('RGB')`: drops the alpha channel
(each pixel becomes fully opaque), mode becomes `"RGB"`. -/
def convertRGB (img : Image) : Image :=
  { width := img.width, height := img.height, mode := "RGB",
    pixel := fun x y =>
      let p := img.pixel x y
      ⟨p.r, p.g, p.b, 255⟩ }

/-- The `img = image.convert('RGB') if image.mode != 'RGB' else image` step of
`trim_whitespace`. -/
def toRGB (image : Image) : Image :=
  if image.mode = "RGB" then image else convertRGB image

theorem toRGB_width (image : Image) : (toRGB image).width = image.width := by
  unfold toRGB
  split <;> rfl

theorem toRGB_height (image : Image) : (toRGB image).height = image.height := by
  unfold toRGB
  split <;> rfl

theorem toRGB_mode (image : Image) : (toRGB image).mode = "RGB" := by
  unfold toRGB
  split
  · assumption
  · rfl

/-- Absolute difference of two channel values (`ImageChops.difference` acts
channel-wise). -/
def natAbsDiff (x y : ℕ) : ℕ := max x y - min x y

/-- Luminance of the channel-wise difference of two pixels: the
`ImageChops.difference(img, bg).convert('L')` pipeline. PIL converts RGB to L
with the ITU-R 601-2 fixed-point weights
`(R·19595 + G·38470 + B·7471 + 2^15) >> 16`. -/
def lumDiff (p q : Pixel) : ℕ :=
  (19595 * natAbsDiff p.r q.r + 38470 * natAbsDiff p.g q.g +
    7471 * natAbsDiff p.b q.b + 32768) / 65536

/-- A pixel is foreground when the thresholded difference mask
`diff.point(lambda p: 255 if p > tolerance else 0)` is nonzero there. -/
def isForeground (img : Image) (bg : Pixel) (tol : ℕ) (x y : ℕ) : Bool :=
  decide (tol < lumDiff (img.pixel x y) bg)

/-- All foreground pixel coordinates of an image (scan order is irrelevant:
only the coordinate extrema are consumed). -/
def fgList (img : Image) (bg : Pixel) (tol : ℕ) : List (ℕ × ℕ) :=
  (List.range img.width).flatMap fun x =>
    (List.range img.height).filterMap fun y =>
      if isForeground img bg tol x y then some (x, y) else none

/-- Embedding of `mask.getbbox()`: the minimal bounding box
`(left, top, right, bottom)` (right/bottom exclusive) of the foreground mask,
`none` when the mask is empty. -/
def getbbox (img : Image) (bg : Pixel) (tol : ℕ) : Option (ℕ × ℕ × ℕ × ℕ) :=
  match fgList img bg tol with
  | [] => none
  | p :: ps =>
    some (ps.foldr (fun q m => min q.1 m) p.1,
          ps.foldr (fun q m => min q.2 m) p.2,
          ps.foldr (fun q m => max q.1 m) p.1 + 1,
          ps.foldr (fun q m => max q.2 m) p.2 + 1)

/-- The branch structure of `trim_whitespace` (app.py) once the bounding box
has been computed: no box returns the input; a padded box that covers the full
image returns the input; otherwise the RGB-converted copy is cropped to the
padded box. `max(0, v - padding)` is natural subtraction `v - pad`. -/
def trimWithBBox (image img : Image) (pad : ℕ) : Option (ℕ × ℕ × ℕ × ℕ) → Image
  | none => image
  | some (l, t, r, b) =>
    if l - pad = 0 ∧ t - pad = 0 ∧ min img.width (r + pad) = img.width ∧
        min img.height (b + pad) = img.height then image
    else cropImage img (l - pad) (t - pad) (min img.width (r + pad))
      (min img.height (b + pad))

/-- Embedding of `trim_whitespace` (app.py): convert to RGB, compute the
foreground bounding box against `bg` at threshold `tol`, expand by `pad`
clamped to image bounds, and crop unless the box is missing or covers the
whole image. -/
def trim_whitespace (image : Image) (bg : Pixel) (tol pad : ℕ) : Image :=
  trimWithBBox image (toRGB image) pad (getbbox (toRGB image) bg tol)

/-! ## SimpleFloorplanTiler (app.py) -/

/-- Embedding of `_create_tile` (app.py): crop the tile's pixel window out of
the (scaled) source; if the crop is narrower or shorter than the tile size,
paste it at the origin of a fully transparent `T × T` RGBA canvas. -/
def create_tile (src : Image) (tx ty imgW imgH T : ℕ) : Image :=
  let x1 := tx * T
  let y1 := ty * T
  let x2 := min (x1 + T) imgW
  let y2 := min (y1 + T) imgH
  let tile := cropImage src x1 y1 x2 y2
  if tile.width < T ∨ tile.height < T then
    { width := T, height := T, mode := "RGBA",
      pixel := fun i j =>
        if i < tile.width ∧ j < tile.height then tile.pixel i j
        else transparentPixel }
  else tile

/-- Embedding of `scaled_width = int(full_width * scale)` with
`scale = 2 ** (zoom - max_zoom)`: the float product of an integer with a power
of two is exact at these magnitudes and `int()` truncates (floors, the value
being nonnegative). -/
def scaledDim (full zoom maxZoom : ℕ) : ℕ :=
  (⌊(full : ℚ) * (2 : ℚ) ^ ((zoom : ℤ) - (maxZoom : ℤ))⌋).toNat

/-- Embedding of `math.ceil(scaled / tile_size)` (exact at these magnitudes). -/
def tilesAxis (scaled T : ℕ) : ℕ := (⌈(scaled : ℚ) / (T : ℚ)⌉).toNat

/-- Embedding of `_generate_zoom_level` (app.py): compute the scaled size,
resample unless at max zoom (the LANCZOS resample is a PIL library call and
enters as the parameter `resample`), then emit one tile per cell of the
`tilesAxis × tilesAxis` grid. (`_create_tile` never returns a falsy value, so
every cell is appended.) -/
def generate_zoom_level (resample : Image → ℕ → ℕ → Image) (src : Image)
    (zoom maxZoom T : ℕ) : List (ℕ × ℕ × Image) :=
  let sw := scaledDim src.width zoom maxZoom
  let sh := scaledDim src.height zoom maxZoom
  let scaledImg := if zoom = maxZoom then src else resample src sw sh
  (List.range (tilesAxis sh T)).flatMap fun ty =>
    (List.range (tilesAxis sw T)).map fun tx =>
      (tx, ty, create_tile scaledImg tx ty sw sh T)

theorem generate_zoom_level_length (resample : Image → ℕ → ℕ → Image)
    (src : Image) (zoom maxZoom T : ℕ) :
    (generate_zoom_level resample src zoom maxZoom T).length =
      tilesAxis (scaledDim src.width zoom maxZoom) T *
        tilesAxis (scaledDim src.height zoom maxZoom) T := by
  simp only [generate_zoom_level, List.length_flatMap, Function.comp_def,
    List.length_map, List.length_range, List.map_const', List.sum_replicate,
    smul_eq_mul]
  ring

theorem scaledDim_eq (full zoom maxZoom : ℕ) (h : zoom ≤ maxZoom) :
    scaledDim full zoom maxZoom = full / 2 ^ (maxZoom - zoom) := by
  unfold scaledDim
  have hz : (zoom : ℤ) - (maxZoom : ℤ) = -((maxZoom - zoom : ℕ) : ℤ) := by
    omega
  rw [hz, zpow_neg, zpow_natCast, ← div_eq_mul_inv]
  rw [show ((2 : ℚ) ^ (maxZoom - zoom)) = (((2 ^ (maxZoom - zoom) : ℕ)) : ℚ) by
    norm_cast]
  rw [Int.floor_toNat, Nat.floor_div_nat, Nat.floor_natCast]

theorem tilesAxis_cast (scaled T : ℕ) :
    (tilesAxis scaled T : ℤ) = ⌈(scaled : ℚ) / (T : ℚ)⌉ := by
  unfold tilesAxis
  rw [Int.toNat_of_nonneg]
  exact Int.ceil_nonneg (by positivity)

/-! ## Claim theorems: trimming and tiling -/

/-- C5: every tile `_create_tile` produces from a grid cell that meets the
image (`tx·T < imgW`, `ty·T < imgH`) is exactly `T × T`; every pixel of the
padding region (outside the cropped content, whose size is
`min(tx·T + T, imgW) - tx·T` by `min(ty·T + T, imgH) - ty·T`) has alpha 0, and
every content pixel is the identical source pixel — the content is never
resampled or stretched. -/
theorem tile_exact_size_and_transparent_padding (src : Image) (tx ty imgW imgH T : ℕ)
    (hx : tx * T < imgW) (hy : ty * T < imgH) (hT : 0 < T) :
    (create_tile src tx ty imgW imgH T).width = T ∧
      (create_tile src tx ty imgW imgH T).height = T ∧
      (∀ i j, i < T → j < T →
        ¬(i < min (tx * T + T) imgW - tx * T ∧ j < min (ty * T + T) imgH - ty * T) →
        ((create_tile src tx ty imgW imgH T).pixel i j).a = 0) ∧
      (∀ i j, i < min (tx * T + T) imgW - tx * T → j < min (ty * T + T) imgH - ty * T →
        (create_tile src tx ty imgW imgH T).pixel i j =
          src.pixel (tx * T + i) (ty * T + j)) := by
  simp only [create_tile, cropImage]
  split
  · -- padded branch
    refine ⟨rfl, rfl, ?_, ?_⟩
    · intro i j _ _ hout
      simp only [if_neg hout]
      rfl
    · intro i j hi hj
      have hin : i < min (tx * T + T) imgW - tx * T ∧
          j < min (ty * T + T) imgH - ty * T := ⟨hi, hj⟩
      simp only [if_pos hin]
  · -- the crop is already full-size: its width and height equal T
    next hfull =>
      push_neg at hfull
      have hw : min (tx * T + T) imgW - tx * T = T := by omega
      have hh : min (ty * T + T) imgH - ty * T = T := by omega
      refine ⟨hw, hh, ?_, ?_⟩
      · intro i j hi hj hout
        exfalso
        exact hout ⟨by omega, by omega⟩
      · intro i j _ _
        rfl

/-- Sample image for the tiling witnesses: `300 × 200`, RGBA. -/
def sampleImage : Image :=
  ⟨300, 200, "RGBA", fun i j => ⟨i % 256, j % 256, 0, 255⟩⟩

/-- Witness for C5: the edge tile `(tx, ty) = (1, 0)` of a `300 × 200` image at
tile size 256 (content `44 × 200`, padded to `256 × 256`). -/
theorem tile_exact_size_and_transparent_padding_witness :
    (1 * 256 < 300 ∧ 0 * 256 < 200 ∧ 0 < 256) ∧
      ((create_tile sampleImage 1 0 300 200 256).width = 256 ∧
        (create_tile sampleImage 1 0 300 200 256).height = 256 ∧
        (∀ i j, i < 256 → j < 256 →
          ¬(i < min (1 * 256 + 256) 300 - 1 * 256 ∧ j < min (0 * 256 + 256) 200 - 0 * 256) →
          ((create_tile sampleImage 1 0 300 200 256).pixel i j).a = 0) ∧
        (∀ i j, i < min (1 * 256 + 256) 300 - 1 * 256 → j < min (0 * 256 + 256) 200 - 0 * 256 →
          (create_tile sampleImage 1 0 300 200 256).pixel i j =
            sampleImage.pixel (1 * 256 + i) (0 * 256 + j))) :=
  ⟨⟨by norm_num, by norm_num, by norm_num⟩,
    tile_exact_size_and_transparent_padding sampleImage 1 0 300 200 256
      (by norm_num) (by norm_num) (by norm_num)⟩

/-- C6: trimming is a no-op on an image whose foreground bounding box reaches
within `pad` pixels of every edge (in particular an image already tightly
cropped to its content): the returned image is the input itself. -/
theorem trim_idempotent_on_tight_input (image : Image) (bg : Pixel)
    (tol pad l t r b : ℕ)
    (hbb : getbbox (toRGB image) bg tol = some (l, t, r, b))
    (hl : l ≤ pad) (ht : t ≤ pad)
    (hr : image.width ≤ r + pad) (hb2 : image.height ≤ b + pad) :
    trim_whitespace image bg tol pad = image := by
  unfold trim_whitespace
  rw [hbb]
  simp only [trimWithBBox]
  rw [if_pos]
  refine ⟨by omega, by omega, ?_, ?_⟩
  · rw [toRGB_width]
    omega
  · rw [toRGB_height]
    omega

/-- A `3 × 3` all-black RGB image: content reaches every edge. -/
def blackImage3 : Image := ⟨3, 3, "RGB", fun _ _ => ⟨0, 0, 0, 255⟩⟩

/-- Witness for C6: trimming the tightly-cropped all-black `3 × 3` image with
the production parameters (white background, tolerance 10, padding 20)
returns it unchanged. -/
theorem trim_idempotent_on_tight_input_witness :
    (getbbox (toRGB blackImage3) whiteRGB 10 = some (0, 0, 3, 3) ∧
        (0 : ℕ) ≤ 20 ∧ (0 : ℕ) ≤ 20 ∧
        blackImage3.width ≤ 3 + 20 ∧ blackImage3.height ≤ 3 + 20) ∧
      trim_whitespace blackImage3 whiteRGB 10 20 = blackImage3 :=
  ⟨⟨by decide, by decide, by decide, by decide, by decide⟩,
    trim_idempotent_on_tight_input blackImage3 whiteRGB 10 20 0 0 3 3
      (by decide) (by decide) (by decide) (by decide) (by decide)⟩

/-- C10: whenever `trim_whitespace` actually crops (a foreground bounding box
exists and the padded box does not cover the whole image), the result is the
crop of the RGB-converted copy, so its mode is `"RGB"` whatever the input
mode was (an RGBA input loses its alpha channel). -/
theorem trim_crop_is_rgb (image : Image) (bg : Pixel) (tol pad l t r b : ℕ)
    (hbb : getbbox (toRGB image) bg tol = some (l, t, r, b))
    (hne : ¬(l - pad = 0 ∧ t - pad = 0 ∧
        min (toRGB image).width (r + pad) = (toRGB image).width ∧
        min (toRGB image).height (b + pad) = (toRGB image).height)) :
    trim_whitespace image bg tol pad =
        cropImage (toRGB image) (l - pad) (t - pad)
          (min (toRGB image).width (r + pad)) (min (toRGB image).height (b + pad)) ∧
      (trim_whitespace image bg tol pad).mode = "RGB" := by
  have h1 : trim_whitespace image bg tol pad =
      cropImage (toRGB image) (l - pad) (t - pad)
        (min (toRGB image).width (r + pad)) (min (toRGB image).height (b + pad)) := by
    unfold trim_whitespace
    rw [hbb]
    simp only [trimWithBBox]
    rw [if_neg hne]
  refine ⟨h1, ?_⟩
  rw [h1]
  simp only [cropImage]
  exact toRGB_mode image

/-- A `5 × 5` white RGBA image with a single black pixel at `(2, 2)`. -/
def dotImage5 : Image :=
  ⟨5, 5, "RGBA", fun x y => if x = 2 ∧ y = 2 then ⟨0, 0, 0, 255⟩ else whiteRGB⟩

/-- Witness for C10: trimming the RGBA `5 × 5` dot image with padding 1 crops
to the `3 × 3` box around the dot, and the result's mode is `"RGB"` — the
alpha channel is gone. -/
theorem trim_crop_is_rgb_witness :
    (getbbox (toRGB dotImage5) whiteRGB 10 = some (2, 2, 3, 3) ∧
        ¬((2 : ℕ) - 1 = 0 ∧ (2 : ℕ) - 1 = 0 ∧
          min (toRGB dotImage5).width (3 + 1) = (toRGB dotImage5).width ∧
          min (toRGB dotImage5).height (3 + 1) = (toRGB dotImage5).height)) ∧
      (trim_whitespace dotImage5 whiteRGB 10 1 =
          cropImage (toRGB dotImage5) (2 - 1) (2 - 1)
            (min (toRGB dotImage5).width (3 + 1)) (min (toRGB dotImage5).height (3 + 1)) ∧
        (trim_whitespace dotImage5 whiteRGB 10 1).mode = "RGB") :=
  ⟨⟨by decide, by decide⟩,
    trim_crop_is_rgb dotImage5 whiteRGB 10 1 2 2 3 3 (by decide) (by decide)⟩

/-- C2 amended: the number of tiles emitted for a zoom level is
`⌈⌊w·2^(zoom-maxZoom)⌋ / T⌉ · ⌈⌊h·2^(zoom-maxZoom)⌋ / T⌉`: the scaled
dimensions are truncated to integers (`int(...)` in the source, natural
division by `2^(maxZoom-zoom)` here) before the ceiling division — not the
exact real-valued products of the spec's formula. -/
theorem tiler_tile_count (resample : Image → ℕ → ℕ → Image) (src : Image)
    (zoom maxZoom T : ℕ) (hz : zoom ≤ maxZoom) :
    ((generate_zoom_level resample src zoom maxZoom T).length : ℤ) =
      ⌈((src.width / 2 ^ (maxZoom - zoom) : ℕ) : ℚ) / (T : ℚ)⌉ *
        ⌈((src.height / 2 ^ (maxZoom - zoom) : ℕ) : ℚ) / (T : ℚ)⌉ := by
  rw [generate_zoom_level_length, scaledDim_eq _ _ _ hz, scaledDim_eq _ _ _ hz]
  rw [Nat.cast_mul, tilesAxis_cast, tilesAxis_cast]

/-- A `513 × 256` white RGBA image (odd width: halving truncates). -/
def img513 : Image := ⟨513, 256, "RGBA", fun _ _ => whiteRGB⟩

/-- A dimension-exact stand-in for the LANCZOS resample (PIL guarantees the
requested output size; pixel content is irrelevant to tile counts). -/
def constResample : Image → ℕ → ℕ → Image := fun img w h =>
  { width := w, height := h, mode := img.mode, pixel := img.pixel }

/-- Modelled from the spec (sections 4.3 and 8): the claimed tile count with
the exact real-valued products `width·2^(zoom-maxZoom)` and
`height·2^(zoom-maxZoom)` inside the ceilings. This formula follows the
spec's words and is compared against the code's tiler; the code instead
truncates the scaled dimensions first. -/
def specTileCountExact (w h T zoom maxZoom : ℕ) : ℤ :=
  ⌈(w : ℚ) * (2 : ℚ) ^ ((zoom : ℤ) - (maxZoom : ℤ)) / (T : ℚ)⌉ *
    ⌈(h : ℚ) * (2 : ℚ) ^ ((zoom : ℤ) - (maxZoom : ℤ)) / (T : ℚ)⌉

/-- C2 counterexample: for a `513 × 256` image at `zoom = 0`, `maxZoom = 1`,
`T = 256`, the tiler emits `⌈⌊513/2⌋/256⌉·⌈⌊256/2⌋/256⌉ = 1·1 = 1` tile, but
the spec's exact formula gives `⌈256.5/256⌉·⌈128/256⌉ = 2·1 = 2`. -/
theorem tile_count_exact_formula_false :
    ((generate_zoom_level constResample img513 0 1 256).length : ℤ) ≠
      specTileCountExact 513 256 256 0 1 := by
  have hL : ((generate_zoom_level constResample img513 0 1 256).length : ℤ) = 1 := by
    rw [generate_zoom_level_length, scaledDim_eq _ _ _ (by norm_num),
      scaledDim_eq _ _ _ (by norm_num)]
    have e1 : img513.width / 2 ^ (1 - 0) = 256 := by norm_num [img513]
    have e2 : img513.height / 2 ^ (1 - 0) = 128 := by norm_num [img513]
    rw [e1, e2]
    have c1 : ⌈((256 : ℕ) : ℚ) / ((256 : ℕ) : ℚ)⌉ = 1 := by
      rw [Int.ceil_eq_iff]
      norm_num
    have c2 : ⌈((128 : ℕ) : ℚ) / ((256 : ℕ) : ℚ)⌉ = 1 := by
      rw [Int.ceil_eq_iff]
      norm_num
    have t1 : tilesAxis 256 256 = 1 := by
      unfold tilesAxis
      rw [c1]
      rfl
    have t2 : tilesAxis 128 256 = 1 := by
      unfold tilesAxis
      rw [c2]
      rfl
    rw [t1, t2]
    rfl
  have hR : specTileCountExact 513 256 256 0 1 = 2 := by
    unfold specTileCountExact
    have d1 : ⌈((513 : ℕ) : ℚ) * (2 : ℚ) ^ (((0 : ℕ) : ℤ) - ((1 : ℕ) : ℤ)) / ((256 : ℕ) : ℚ)⌉ =
        2 := by
      rw [Int.ceil_eq_iff]
      norm_num
    have d2 : ⌈((256 : ℕ) : ℚ) * (2 : ℚ) ^ (((0 : ℕ) : ℤ) - ((1 : ℕ) : ℤ)) / ((256 : ℕ) : ℚ)⌉ =
        1 := by
      rw [Int.ceil_eq_iff]
      norm_num
    rw [d1, d2]
    norm_num
  rw [hL, hR]
  decide

/-- Witness for C2 (amended) at a `300 × 200` image, `zoom = 0`, `maxZoom = 2`,
`T = 256`: scaled dimensions `75 × 50`, one tile. -/
theorem tiler_tile_count_witness :
    (0 : ℕ) ≤ 2 ∧
      ((generate_zoom_level constResample sampleImage 0 2 256).length : ℤ) =
        ⌈((sampleImage.width / 2 ^ (2 - 0) : ℕ) : ℚ) / ((256 : ℕ) : ℚ)⌉ *
          ⌈((sampleImage.height / 2 ^ (2 - 0) : ℕ) : ℚ) / ((256 : ℕ) : ℚ)⌉ :=
  ⟨by norm_num, tiler_tile_count constResample sampleImage 0 2 256 (by norm_num)⟩

end FloorplanTiler
